import Mathlib

/- Shallow embedding of the core of the shadowsocks-rust repository:
the latency-scored load balancer (relay/loadbalancing/server/ping.rs)
and the UDP relay local endpoint (relay/udprelay/socks5_local.rs).

Modelling conventions:
- Machine integers (u64, usize) are modelled as Nat; the arithmetic in
  scope never overflows 64 bits on the inputs considered.
- The score computation in the source is performed in f64 and truncated
  with an `as u64` cast; since all quantities are nonnegative this is the
  floor of the computed value.  The embedding uses exact rational
  arithmetic with Nat.floor.  On every concrete input appearing below the
  f64 value is well clear of a rounding boundary, so exact and f64
  arithmetic truncate to the same integer.
- The SOCKS5 framing codec and the cipher are external collaborators of
  the specified core (spec section 1); datagrams are therefore modelled in
  decoded, structured form rather than as raw byte strings.
- VecDeque is modelled as a List with push_back = append and
  pop_front = drop 1. -/

namespace Shadowsocks

/-! ## relay/loadbalancing/server/ping.rs : data model -/

/-- Source: `const MAX_LATENCY_QUEUE_SIZE: usize = 37`. -/
def MAX_LATENCY_QUEUE_SIZE : Nat := 37

/-- Source: `const DEFAULT_CHECK_TIMEOUT_SEC: u64 = 2`. -/
def DEFAULT_CHECK_TIMEOUT_SEC : Nat := 2

/-- Source: `const DEFAULT_CHECK_INTERVAL_SEC: u64 = 6`. -/
def DEFAULT_CHECK_INTERVAL_SEC : Nat := 6

/-- Source: `enum Score { Latency(u64), Errored }` (one probe outcome). -/
inductive Score where
  | Latency (ms : Nat)
  | Errored
deriving DecidableEq, Repr

/-- The latencies stored in the window, in order: the `vec_lat` vector
built by the loop in `ServerLatencyInner::score`. -/
def latenciesOf (q : List Score) : List Nat :=
  q.filterMap fun s =>
    match s with
    | .Latency l => some l
    | .Errored => none

/-- The error count of the window: the `acc_err` accumulator built by the
loop in `ServerLatencyInner::score`. -/
def errCount (q : List Score) : Nat :=
  q.countP fun s =>
    match s with
    | .Latency _ => false
    | .Errored => true

namespace ServerLatencyInner

/-- Median block of `ServerLatencyInner::score` (the `else` branch where
`vec_lat` is non-empty): sort the latencies, then
`if len % 2 == 0 then (vec_lat[mid] + vec_lat[mid - 1]) / 2 else vec_lat[mid]`
with `mid = len / 2`. -/
def midLat (vec_lat : List Nat) : Nat :=
  let sorted := vec_lat.insertionSort (fun a b => a ≤ b)
  let mid := sorted.length / 2
  if sorted.length % 2 == 0 then (sorted.getD mid 0 + sorted.getD (mid - 1) 0) / 2
  else sorted.getD mid 0

/-- Source: `ServerLatencyInner::score`.  Empty window scores `2 * 1000`;
otherwise `((mid_lat / max_lat + acc_err / len) * 1000.0) as u64`, the f64
arithmetic modelled exactly over the rationals (truncation of a
nonnegative value is Nat.floor). -/
def score (q : List Score) : Nat :=
  if q.isEmpty then 2 * 1000
  else
    let vec_lat := latenciesOf q
    let acc_err := errCount q
    let max_lat := DEFAULT_CHECK_TIMEOUT_SEC * 1000
    let mid_lat := if vec_lat.isEmpty then max_lat else midLat vec_lat
    let norm_lat : ℚ := (mid_lat : ℚ) / (max_lat : ℚ)
    let prop_err : ℚ := (acc_err : ℚ) / (q.length : ℚ)
    ⌊(norm_lat + prop_err) * 1000⌋₊

/-- Source: window mutation part of `ServerLatencyInner::push`:
`push_back(lat)` then `pop_front()` if the length exceeds
`MAX_LATENCY_QUEUE_SIZE`. -/
def pushState (q : List Score) (lat : Score) : List Score :=
  let q' := q ++ [lat]
  if MAX_LATENCY_QUEUE_SIZE < q'.length then q'.drop 1 else q'

/-- Source: `ServerLatencyInner::push` returns `self.score()` after the
mutation; modelled as the new window paired with its score. -/
def push (q : List Score) (lat : Score) : List Score × Nat :=
  let q' := pushState q lat
  (q', score q')

/-- All-Nat normal form of `score`: the floor of
`(mid/max + err/len) * 1000` equals `(mid*len + max*err) * 1000` divided
by `max*len` in Nat arithmetic.  Used to evaluate and reason about
`score` without rational arithmetic. -/
def natScore (q : List Score) : Nat :=
  if q.isEmpty then 2 * 1000
  else
    let vec_lat := latenciesOf q
    let max_lat := DEFAULT_CHECK_TIMEOUT_SEC * 1000
    let mid_lat := if vec_lat.isEmpty then max_lat else midLat vec_lat
    (mid_lat * q.length + max_lat * errCount q) * 1000 / (max_lat * q.length)

end ServerLatencyInner

/-- Floor of the blended score expression as a Nat division. -/
theorem floor_score_formula (m e n M : Nat) (hn : 0 < n) (hM : 0 < M) :
    ⌊((m : ℚ) / (M : ℚ) + (e : ℚ) / (n : ℚ)) * 1000⌋₊
      = (m * n + M * e) * 1000 / (M * n) := by
  have hnQ : (n : ℚ) ≠ 0 := Nat.cast_ne_zero.mpr hn.ne'
  have hMQ : (M : ℚ) ≠ 0 := Nat.cast_ne_zero.mpr hM.ne'
  have h : ((m : ℚ) / (M : ℚ) + (e : ℚ) / (n : ℚ)) * 1000
      = (((m * n + M * e) * 1000 : Nat) : ℚ) / ((M * n : Nat) : ℚ) := by
    push_cast
    field_simp
    ring
  rw [h, Nat.floor_div_nat, Nat.floor_natCast]

/-- The rational-arithmetic score agrees with its Nat normal form. -/
theorem score_eq_natScore (q : List Score) :
    ServerLatencyInner.score q = ServerLatencyInner.natScore q := by
  unfold ServerLatencyInner.score ServerLatencyInner.natScore
  by_cases hq : q.isEmpty
  · simp [hq]
  · simp only [hq, if_false]
    have hn : 0 < q.length := by
      cases q with
      | nil => simp at hq
      | cons a l => simp
    exact floor_score_formula _ _ _ _ hn (by norm_num [DEFAULT_CHECK_TIMEOUT_SEC])

/-! ## Reference score definitions taken from the specification text
(for the refinement claim C1).  The spec defines, for a non-empty window:
`L` = sorted latencies, `E` = error count, `N` = window length,
`MAX_LAT_MS = TIMEOUT_SEC * 1000 = 2000`; `mid = MAX_LAT_MS` if `L` is
empty, else the median of `L`; and
`score = floor((mid / MAX_LAT_MS + E / N) * 1000)`. -/

/-- Reference definition, read with the even-length median indexed by the
length of `L` (the sorted latency list): `(L[|L|/2-1] + L[|L|/2]) / 2`
with integer division. -/
def specScore (q : List Score) : Nat :=
  if q.length = 0 then 2000
  else
    let L := (latenciesOf q).insertionSort (fun a b => a ≤ b)
    let E := errCount q
    let N := q.length
    let MAX_LAT_MS := DEFAULT_CHECK_TIMEOUT_SEC * 1000
    let mid :=
      if L.length = 0 then MAX_LAT_MS
      else if L.length % 2 = 0 then (L.getD (L.length / 2 - 1) 0 + L.getD (L.length / 2) 0) / 2
      else L.getD (L.length / 2) 0
    ⌊((mid : ℚ) / (MAX_LAT_MS : ℚ) + (E : ℚ) / (N : ℚ)) * 1000⌋₊

/-- Median of the claim's reference definition read literally: the
even-length median is `(L[N/2-1] + L[N/2]) / 2` where `N` is the window
length (not the length of `L`). -/
def midLiteral (q : List Score) : Nat :=
  let L := (latenciesOf q).insertionSort (fun a b => a ≤ b)
  let N := q.length
  if L.length = 0 then DEFAULT_CHECK_TIMEOUT_SEC * 1000
  else if L.length % 2 = 0 then (L.getD (N / 2 - 1) 0 + L.getD (N / 2) 0) / 2
  else L.getD (L.length / 2) 0

/-- Reference score read literally as the claim states it, with the
even-length median indexed by the window length `N`. -/
def specScoreLiteral (q : List Score) : Nat :=
  if q.length = 0 then 2000
  else
    ⌊((midLiteral q : ℚ) / ((DEFAULT_CHECK_TIMEOUT_SEC * 1000 : Nat) : ℚ)
        + (errCount q : ℚ) / (q.length : ℚ)) * 1000⌋₊

/-- Nat evaluation form of the literal reference score. -/
theorem specScoreLiteral_eval (q : List Score) (h : 0 < q.length) :
    specScoreLiteral q
      = (midLiteral q * q.length + DEFAULT_CHECK_TIMEOUT_SEC * 1000 * errCount q) * 1000
          / (DEFAULT_CHECK_TIMEOUT_SEC * 1000 * q.length) := by
  unfold specScoreLiteral
  rw [if_neg h.ne']
  exact floor_score_formula _ _ _ _ h (by norm_num [DEFAULT_CHECK_TIMEOUT_SEC])

/-- The amended reference definition agrees with the Nat normal form of
the source's score. -/
theorem specScore_eq_natScore (q : List Score) :
    specScore q = ServerLatencyInner.natScore q := by
  unfold specScore ServerLatencyInner.natScore
  by_cases hq : q.isEmpty
  · have h0 : q.length = 0 := by
      cases q with
      | nil => rfl
      | cons a l => simp at hq
    simp [h0, hq]
  · have hlen : ¬ q.length = 0 := by
      cases q with
      | nil => simp at hq
      | cons a l => simp
    have hn : 0 < q.length := Nat.pos_of_ne_zero hlen
    rw [if_neg hlen]
    simp only [hq, if_false]
    rw [floor_score_formula _ _ _ _ hn (by norm_num [DEFAULT_CHECK_TIMEOUT_SEC])]
    congr 2
    by_cases hv : (latenciesOf q).isEmpty
    · have hL : ((latenciesOf q).insertionSort (fun a b => a ≤ b)).length = 0 := by
        rw [List.length_insertionSort]
        cases hl : latenciesOf q with
        | nil => rfl
        | cons a l => rw [hl] at hv; simp at hv
      simp [hL, hv]
    · have hvne : latenciesOf q ≠ [] := by
        intro h
        rw [h] at hv
        simp at hv
      have hL : ¬ ((latenciesOf q).insertionSort (fun a b => a ≤ b)).length = 0 := by
        rw [List.length_insertionSort]
        simpa [List.length_eq_zero] using hvne
      rw [if_neg hL]
      simp only [hv, if_false]
      unfold ServerLatencyInner.midLat
      simp only [List.length_insertionSort]
      by_cases hpar : (latenciesOf q).length % 2 = 0
      · simp [hpar, Nat.add_comm]
      · simp [hpar]

/-- C1, the claim as stated is false: for the reachable window
`[Latency 10, Latency 20, Latency 30, Latency 40, Errored, Errored]` the
source's score is 345, while the claim's reference definition — whose
even-length median reads `(L[N/2-1] + L[N/2]) / 2` with `N` the window
length — yields 350, because it indexes the 4-element sorted latency list
`L` at positions 2 and 3 instead of 1 and 2. -/
theorem c1_counterexample :
    ServerLatencyInner.score
        [.Latency 10, .Latency 20, .Latency 30, .Latency 40, .Errored, .Errored] = 345 ∧
    specScoreLiteral
        [.Latency 10, .Latency 20, .Latency 30, .Latency 40, .Errored, .Errored] = 350 ∧
    (345 : Nat) ≠ 350 := by
  refine ⟨?_, ?_, by decide⟩
  · rw [score_eq_natScore]
    decide
  · rw [specScoreLiteral_eval _ (by decide)]
    decide

/-- C1 (amended): `push` returns the score of the updated window, and the
score of every window equals the spec's reference definition once the
even-length median indexes the sorted latency list `L` by its own length,
`mid = (L[|L|/2-1] + L[|L|/2]) / 2`; in particular the window
`[Latency 10, Latency 20, Latency 30, Latency 40]` scores 12. -/
theorem c1_score_matches_reference :
    (∀ q lat, (ServerLatencyInner.push q lat).2
        = ServerLatencyInner.score (ServerLatencyInner.push q lat).1) ∧
    (∀ q, ServerLatencyInner.score q = specScore q) ∧
    ServerLatencyInner.score [.Latency 10, .Latency 20, .Latency 30, .Latency 40] = 12 := by
  refine ⟨fun q lat => rfl,
    fun q => (score_eq_natScore q).trans (specScore_eq_natScore q).symm, ?_⟩
  rw [score_eq_natScore]
  decide

/-! ## Window cap (C8) -/

/-- Folding `pushState` keeps the last `MAX_LATENCY_QUEUE_SIZE` entries of
the accumulated sequence. -/
theorem foldl_pushState_drop :
    ∀ (outs q : List Score), q.length ≤ MAX_LATENCY_QUEUE_SIZE →
      List.foldl ServerLatencyInner.pushState q outs
        = (q ++ outs).drop ((q ++ outs).length - MAX_LATENCY_QUEUE_SIZE) := by
  intro outs
  induction outs with
  | nil =>
    intro q hq
    simp only [List.foldl_nil, List.append_nil]
    rw [Nat.sub_eq_zero_of_le hq, List.drop_zero]
  | cons s rest ih =>
    intro q hq
    rw [List.foldl_cons]
    rcases Nat.lt_or_ge q.length MAX_LATENCY_QUEUE_SIZE with hlt | hge
    · have hps : ServerLatencyInner.pushState q s = q ++ [s] := by
        unfold ServerLatencyInner.pushState
        rw [if_neg]
        simp only [List.length_append, List.length_singleton]
        omega
      rw [hps, ih (q ++ [s]) (by simp only [List.length_append, List.length_singleton]; omega)]
      simp [List.append_assoc]
    · have h37 : q.length = MAX_LATENCY_QUEUE_SIZE := le_antisymm hq hge
      have hq1 : 1 ≤ q.length := by rw [h37]; decide
      have hps : ServerLatencyInner.pushState q s = q.drop 1 ++ [s] := by
        unfold ServerLatencyInner.pushState
        rw [if_pos (by simp only [List.length_append, List.length_singleton]; omega)]
        rw [List.drop_append_of_le_length hq1]
      rw [hps, ih _ (by simp only [List.length_append, List.length_singleton, List.length_drop]; omega)]
      have hlen1 : ((q.drop 1 ++ [s]) ++ rest).length - MAX_LATENCY_QUEUE_SIZE = rest.length := by
        simp only [List.length_append, List.length_singleton, List.length_drop]
        omega
      have hlen2 : (q ++ s :: rest).length - MAX_LATENCY_QUEUE_SIZE = rest.length + 1 := by
        simp only [List.length_append, List.length_cons]
        omega
      rw [hlen1, hlen2]
      have hdd : (q ++ s :: rest).drop (rest.length + 1)
          = ((q ++ s :: rest).drop 1).drop rest.length := by
        rw [List.drop_drop, Nat.add_comm]
      rw [hdd, List.drop_append_of_le_length hq1]
      have : (q.drop 1) ++ s :: rest = (q.drop 1 ++ [s]) ++ rest := by
        simp [List.append_assoc]
      rw [this]

/-- C8: after `k > 37` pushes starting from the fresh (empty) window, the
window has length exactly 37 and holds precisely the last 37 pushed
outcomes in insertion order (the oldest entry being evicted from the front
on each overflow). -/
theorem c8_window_cap (outs : List Score)
    (h : MAX_LATENCY_QUEUE_SIZE < outs.length) :
    (List.foldl ServerLatencyInner.pushState [] outs).length = MAX_LATENCY_QUEUE_SIZE ∧
    List.foldl ServerLatencyInner.pushState [] outs
      = outs.drop (outs.length - MAX_LATENCY_QUEUE_SIZE) := by
  have hfold := foldl_pushState_drop outs [] (by decide)
  simp only [List.nil_append] at hfold
  refine ⟨?_, hfold⟩
  rw [hfold, List.length_drop]
  omega

/-- Witness for C8 at a concrete sequence of 38 pushes. -/
theorem c8_window_cap_witness :
    MAX_LATENCY_QUEUE_SIZE < (List.replicate 38 Score.Errored).length ∧
    (List.foldl ServerLatencyInner.pushState [] (List.replicate 38 Score.Errored)).length
      = MAX_LATENCY_QUEUE_SIZE :=
  ⟨by decide, (c8_window_cap _ (by decide)).1⟩

/-! ## Score bounds (C3) -/

/-- A `getD` with default 0 is bounded by any bound on the list's
elements. -/
theorem getD_le_of_forall_le {l : List Nat} {c : Nat} (h : ∀ y ∈ l, y ≤ c) (n : Nat) :
    l.getD n 0 ≤ c := by
  by_cases hn : n < l.length
  · rw [List.getD_eq_getElem l 0 hn]
    exact h _ (List.getElem_mem hn)
  · rw [List.getD_eq_default l 0 (Nat.le_of_not_lt hn)]
    exact Nat.zero_le c

/-- The median block is bounded by any bound on the latencies. -/
theorem midLat_le_of_forall_le {v : List Nat} {c : Nat} (h : ∀ y ∈ v, y ≤ c) :
    ServerLatencyInner.midLat v ≤ c := by
  have hs : ∀ y ∈ v.insertionSort (fun a b => a ≤ b), y ≤ c := fun y hy =>
    h y ((List.perm_insertionSort _ v).subset hy)
  unfold ServerLatencyInner.midLat
  by_cases hpar : (v.insertionSort (fun a b => a ≤ b)).length % 2 == 0
  · simp only [hpar, if_true]
    have h1 := getD_le_of_forall_le hs ((v.insertionSort (fun a b => a ≤ b)).length / 2)
    have h2 := getD_le_of_forall_le hs ((v.insertionSort (fun a b => a ≤ b)).length / 2 - 1)
    omega
  · simp only [hpar, if_false]
    exact getD_le_of_forall_le hs _

/-- C3 (amended): for every window whose recorded latencies are all at
most `MAX_LAT_MS = 2000` (as produced by probes bounded by the 2-second
check timeout), the score lies in `[0, 2000]`. -/
theorem c3_score_bounds (q : List Score)
    (h : ∀ x ∈ latenciesOf q, x ≤ DEFAULT_CHECK_TIMEOUT_SEC * 1000) :
    0 ≤ ServerLatencyInner.score q ∧ ServerLatencyInner.score q ≤ 2000 := by
  refine ⟨Nat.zero_le _, ?_⟩
  rw [score_eq_natScore]
  unfold ServerLatencyInner.natScore
  by_cases hq : q.isEmpty
  · simp [hq]
  · simp only [hq, if_false]
    have hn : 0 < q.length := by
      cases q with
      | nil => simp at hq
      | cons a l => simp
    have hmax : DEFAULT_CHECK_TIMEOUT_SEC * 1000 = 2000 := by decide
    rw [hmax] at h ⊢
    have hm : (if (latenciesOf q).isEmpty then 2000 else ServerLatencyInner.midLat (latenciesOf q))
        ≤ 2000 := by
      by_cases hv : (latenciesOf q).isEmpty
      · simp [hv]
      · simp only [hv, if_false]
        exact midLat_le_of_forall_le h
    have he : errCount q ≤ q.length := List.countP_le_length _
    set m := if (latenciesOf q).isEmpty then 2000 else ServerLatencyInner.midLat (latenciesOf q)
    have hnum : (m * q.length + 2000 * errCount q) * 1000 ≤ 2000 * (2000 * q.length) := by
      have h1 : m * q.length ≤ 2000 * q.length := Nat.mul_le_mul_right _ hm
      have h2 : 2000 * errCount q ≤ 2000 * q.length := Nat.mul_le_mul_left _ he
      nlinarith
    calc (m * q.length + 2000 * errCount q) * 1000 / (2000 * q.length)
        ≤ 2000 * (2000 * q.length) / (2000 * q.length) := Nat.div_le_div_right hnum
      _ = 2000 := by
          rw [Nat.mul_comm 2000 (2000 * q.length), Nat.mul_div_cancel_left _ (by positivity)]

/-- Witness for C3 at a concrete bounded window. -/
theorem c3_score_bounds_witness :
    (∀ x ∈ latenciesOf [Score.Latency 10, Score.Errored],
        x ≤ DEFAULT_CHECK_TIMEOUT_SEC * 1000) ∧
    ServerLatencyInner.score [Score.Latency 10, Score.Errored] ≤ 2000 :=
  ⟨by decide, (c3_score_bounds _ (by decide)).2⟩

/-- C3, the claim as stated is false: the window reached by pushing the
single outcome `Latency 1000000` onto the fresh window scores 500000,
far above 2000 — the bound only holds for latencies bounded by the probe
timeout. -/
theorem c3_counterexample :
    ServerLatencyInner.score
        (List.foldl ServerLatencyInner.pushState [] [Score.Latency 1000000]) = 500000 ∧
    ¬ (ServerLatencyInner.score
        (List.foldl ServerLatencyInner.pushState [] [Score.Latency 1000000]) ≤ 2000) := by
  constructor
  · rw [score_eq_natScore]
    decide
  · rw [score_eq_natScore]
    decide

/-! ## Panic-freedom of the score computation (C10) -/

/-- Version of `score` in which every slice indexing of the source
(`vec_lat[mid]`, `vec_lat[mid - 1]`) is checked and the division by the
window length is guarded: an out-of-bounds access or a zero denominator
yields `none` (modelling a Rust panic or an ill-defined value). -/
def scoreOpt (q : List Score) : Option Nat :=
  if q.isEmpty then some (2 * 1000)
  else
    let vec_lat := latenciesOf q
    let acc_err := errCount q
    let max_lat := DEFAULT_CHECK_TIMEOUT_SEC * 1000
    let midO : Option Nat :=
      if vec_lat.isEmpty then some max_lat
      else
        let sorted := vec_lat.insertionSort (fun a b => a ≤ b)
        let mid := sorted.length / 2
        if sorted.length % 2 == 0 then
          match sorted[mid]?, sorted[mid - 1]? with
          | some a, some b => some ((a + b) / 2)
          | _, _ => none
        else sorted[mid]?
    if q.length = 0 then none
    else
      match midO with
      | none => none
      | some m =>
          some ⌊((m : ℚ) / (max_lat : ℚ) + (acc_err : ℚ) / (q.length : ℚ)) * 1000⌋₊

/-- C10: the score computation never hits an out-of-bounds index or a zero
denominator — the checked variant always returns the score: in the
non-empty branch the denominator is the window length `N > 0`, and every
median index (`len/2` and `len/2 - 1` for even `len`, `len/2` for odd
`len`) is in bounds. -/
theorem c10_score_no_panic (q : List Score) :
    scoreOpt q = some (ServerLatencyInner.score q) := by
  unfold scoreOpt ServerLatencyInner.score
  by_cases hq : q.isEmpty
  · simp [hq]
  · have hlen : ¬ q.length = 0 := by
      cases q with
      | nil => simp at hq
      | cons a l => simp
    simp only [hq, if_false, hlen]
    by_cases hv : (latenciesOf q).isEmpty
    · simp [hv]
    · have hsl : 0 < ((latenciesOf q).insertionSort (fun a b => a ≤ b)).length := by
        rw [List.length_insertionSort]
        cases hl : latenciesOf q with
        | nil => rw [hl] at hv; simp at hv
        | cons a l => simp
      simp only [hv, if_false]
      by_cases hpar : ((latenciesOf q).insertionSort (fun a b => a ≤ b)).length % 2 == 0
      · have hpar' : ((latenciesOf q).insertionSort (fun a b => a ≤ b)).length % 2 = 0 := by
          simpa using hpar
        have hmid : ((latenciesOf q).insertionSort (fun a b => a ≤ b)).length / 2
            < ((latenciesOf q).insertionSort (fun a b => a ≤ b)).length :=
          Nat.div_lt_self hsl (by norm_num)
        have hmid1 : ((latenciesOf q).insertionSort (fun a b => a ≤ b)).length / 2 - 1
            < ((latenciesOf q).insertionSort (fun a b => a ≤ b)).length :=
          lt_of_le_of_lt (Nat.sub_le _ _) hmid
        simp only [hpar, if_true]
        rw [List.getElem?_eq_getElem hmid, List.getElem?_eq_getElem hmid1]
        unfold ServerLatencyInner.midLat
        simp only [hpar, if_true]
        rw [List.getD_eq_getElem _ _ hmid, List.getD_eq_getElem _ _ hmid1]
        simp
      · have hmid : ((latenciesOf q).insertionSort (fun a b => a ≤ b)).length / 2
            < ((latenciesOf q).insertionSort (fun a b => a ≤ b)).length :=
          Nat.div_lt_self hsl (by norm_num)
        simp only [hpar, if_false]
        rw [List.getElem?_eq_getElem hmid]
        unfold ServerLatencyInner.midLat
        simp only [hpar, if_false]
        rw [List.getD_eq_getElem _ _ hmid]
        simp

/-! ## Monotonicity in errors (C7) -/

/-- In a sorted list, `getD` with default 0 is monotone in the index as
long as the larger index is in bounds. -/
theorem sorted_getD_mono {l : List Nat} (hl : l.Sorted (· ≤ ·)) {i j : Nat}
    (hij : i ≤ j) (hj : j < l.length) : l.getD i 0 ≤ l.getD j 0 := by
  have hi : i < l.length := lt_of_le_of_lt hij hj
  rw [List.getD_eq_getElem l 0 hi, List.getD_eq_getElem l 0 hj]
  have h := hl.rel_get_of_le (a := ⟨i, hi⟩) (b := ⟨j, hj⟩) (Fin.mk_le_mk.mpr hij)
  simpa using h

/-- Prepending a lower bound shifts `getD` down (or keeps it) at every
in-bounds index. -/
theorem getD_cons_le {x : Nat} {s : List Nat} (hs : s.Sorted (· ≤ ·))
    (hx : ∀ y ∈ s, x ≤ y) {n : Nat} (hn : n < s.length) :
    (x :: s).getD n 0 ≤ s.getD n 0 := by
  cases n with
  | zero =>
    rw [List.getD_cons_zero]
    rw [List.getD_eq_getElem s 0 hn]
    exact hx _ (List.getElem_mem hn)
  | succ m =>
    rw [List.getD_cons_succ]
    exact sorted_getD_mono hs (Nat.le_succ m) hn

/-- Removing a minimal element from the front of a sorted list does not
decrease the median block. -/
theorem midLat_cons_le {x : Nat} {s : List Nat} (hs : s.Sorted (· ≤ ·)) (hne : s ≠ [])
    (hx : ∀ y ∈ s, x ≤ y) :
    ServerLatencyInner.midLat (x :: s) ≤ ServerLatencyInner.midLat s := by
  have hxs : (x :: s).Sorted (· ≤ ·) := List.sorted_cons.mpr ⟨hx, hs⟩
  have hk : 0 < s.length := List.length_pos.mpr hne
  unfold ServerLatencyInner.midLat
  rw [hxs.insertionSort_eq, hs.insertionSort_eq]
  simp only [List.length_cons]
  rcases Nat.mod_two_eq_zero_or_one s.length with hpar | hpar
  · -- s has even length, x :: s has odd length
    have hodd : (s.length + 1) % 2 = 1 := by omega
    simp only [hodd, hpar]
    norm_num
    simp only [← List.getD_eq_getElem?_getD]
    have h1 : (s.length + 1) / 2 = s.length / 2 := by omega
    rw [h1]
    have hi1 : 1 ≤ s.length / 2 := by omega
    have hilt : s.length / 2 < s.length := Nat.div_lt_self hk (by norm_num)
    obtain ⟨j, hj⟩ : ∃ j, s.length / 2 = j + 1 := ⟨s.length / 2 - 1, by omega⟩
    rw [hj, List.getD_cons_succ]
    simp only [Nat.add_sub_cancel]
    have hmono : s.getD j 0 ≤ s.getD (j + 1) 0 :=
      sorted_getD_mono hs (Nat.le_succ j) (by omega)
    omega
  · -- s has odd length, x :: s has even length
    have heven : (s.length + 1) % 2 = 0 := by omega
    simp only [heven, hpar]
    norm_num
    simp only [← List.getD_eq_getElem?_getD]
    have h1 : (s.length + 1) / 2 = s.length / 2 + 1 := by omega
    rw [h1, List.getD_cons_succ]
    simp only [Nat.add_sub_cancel]
    have hilt : s.length / 2 < s.length := Nat.div_lt_self hk (by norm_num)
    have hb : (x :: s).getD (s.length / 2) 0 ≤ s.getD (s.length / 2) 0 :=
      getD_cons_le hs hx hilt
    omega

/-- Replacing one minimal latency by an error does not decrease the median
block of the remaining latencies. -/
theorem midLat_removal_le {la lb : List Nat} {x : Nat}
    (hmin : ∀ y ∈ la ++ x :: lb, x ≤ y) (hne : la ++ lb ≠ []) :
    ServerLatencyInner.midLat (la ++ x :: lb) ≤ ServerLatencyInner.midLat (la ++ lb) := by
  have hmin' : ∀ y ∈ la ++ lb, x ≤ y := by
    intro y hy
    apply hmin
    rw [List.mem_append] at hy ⊢
    rcases hy with h | h
    · exact Or.inl h
    · exact Or.inr (List.mem_cons_of_mem _ h)
  have hs_sorted : ((la ++ lb).insertionSort (fun a b => a ≤ b)).Sorted (· ≤ ·) :=
    List.sorted_insertionSort _ _
  have hs_min : ∀ y ∈ (la ++ lb).insertionSort (fun a b => a ≤ b), x ≤ y := fun y hy =>
    hmin' y ((List.perm_insertionSort _ _).subset hy)
  have hs_ne : (la ++ lb).insertionSort (fun a b => a ≤ b) ≠ [] := by
    intro h
    apply hne
    have hperm := List.perm_insertionSort (fun a b => a ≤ b) (la ++ lb)
    rw [h] at hperm
    exact hperm.symm.eq_nil
  have hcons_sorted : (x :: (la ++ lb).insertionSort (fun a b => a ≤ b)).Sorted (· ≤ ·) :=
    List.sorted_cons.mpr ⟨hs_min, hs_sorted⟩
  have hperm : List.Perm ((la ++ x :: lb).insertionSort (fun a b => a ≤ b))
      (x :: (la ++ lb).insertionSort (fun a b => a ≤ b)) :=
    ((List.perm_insertionSort _ _).trans List.perm_middle).trans
      (List.Perm.cons x (List.perm_insertionSort _ _).symm)
  have hsort_eq : (la ++ x :: lb).insertionSort (fun a b => a ≤ b)
      = x :: (la ++ lb).insertionSort (fun a b => a ≤ b) :=
    List.eq_of_perm_of_sorted hperm (List.sorted_insertionSort _ _) hcons_sorted
  have h1 : ServerLatencyInner.midLat (la ++ x :: lb)
      = ServerLatencyInner.midLat (x :: (la ++ lb).insertionSort (fun a b => a ≤ b)) := by
    unfold ServerLatencyInner.midLat
    rw [hsort_eq, hcons_sorted.insertionSort_eq]
  have h2 : ServerLatencyInner.midLat (la ++ lb)
      = ServerLatencyInner.midLat ((la ++ lb).insertionSort (fun a b => a ≤ b)) := by
    unfold ServerLatencyInner.midLat
    rw [hs_sorted.insertionSort_eq]
  rw [h1, h2]
  exact midLat_cons_le hs_sorted hs_ne hs_min

/-- C7, the claim as stated is false: the window
`[Latency 0, Latency 2000, Latency 2000]` scores 1000, but replacing one
`Latency 2000` entry with `Errored` drops the median from 2000 to 1000 and
the score DECREASES to 833; likewise `[Latency 5000]` scores 2500 while
`[Errored]` scores only 2000. -/
theorem c7_counterexample :
    ServerLatencyInner.score [Score.Latency 0, Score.Latency 2000, Score.Latency 2000] = 1000 ∧
    ServerLatencyInner.score [Score.Latency 0, Score.Latency 2000, Score.Errored] = 833 ∧
    ServerLatencyInner.score [Score.Latency 0, Score.Latency 2000, Score.Errored]
      < ServerLatencyInner.score [Score.Latency 0, Score.Latency 2000, Score.Latency 2000] ∧
    ServerLatencyInner.score [Score.Latency 5000] = 2500 ∧
    ServerLatencyInner.score [Score.Errored] = 2000 := by
  refine ⟨?_, ?_, ?_, ?_, ?_⟩ <;>
    (simp only [score_eq_natScore]; decide)

/-- C7 (amended): replacing a `Latency x` entry with `Errored` never
decreases the score, provided `x` is bounded by `MAX_LAT_MS` and `x` is a
minimum of the window's latencies (for larger or non-minimal latencies the
median can drop by more than the error-proportion term gains, see the
counterexample). -/
theorem c7_errored_monotone (la lb : List Score) (x : Nat)
    (hx2000 : x ≤ DEFAULT_CHECK_TIMEOUT_SEC * 1000)
    (hmin : ∀ y ∈ latenciesOf (la ++ Score.Latency x :: lb), x ≤ y) :
    ServerLatencyInner.score (la ++ Score.Latency x :: lb)
      ≤ ServerLatencyInner.score (la ++ Score.Errored :: lb) := by
  rw [score_eq_natScore, score_eq_natScore]
  have hlat1 : latenciesOf (la ++ Score.Latency x :: lb)
      = latenciesOf la ++ x :: latenciesOf lb := by
    unfold latenciesOf
    rw [List.filterMap_append]
    rfl
  have hlat2 : latenciesOf (la ++ Score.Errored :: lb)
      = latenciesOf la ++ latenciesOf lb := by
    unfold latenciesOf
    rw [List.filterMap_append]
    rfl
  have herr : errCount (la ++ Score.Errored :: lb)
      = errCount (la ++ Score.Latency x :: lb) + 1 := by
    unfold errCount
    rw [List.countP_append, List.countP_append, List.countP_cons, List.countP_cons]
    simp
    omega
  have hlen : (la ++ Score.Errored :: lb).length = (la ++ Score.Latency x :: lb).length := by
    simp
  have hne1 : ¬ (la ++ Score.Latency x :: lb).isEmpty = true := by
    cases la <;> simp
  have hne2 : ¬ (la ++ Score.Errored :: lb).isEmpty = true := by
    cases la <;> simp
  have hlatne : ¬ (latenciesOf (la ++ Score.Latency x :: lb)).isEmpty = true := by
    rw [hlat1]
    cases hl : latenciesOf la <;> simp
  unfold ServerLatencyInner.natScore
  simp only [hne1, hne2, hlatne, Bool.false_eq_true, if_false]
  rw [hlen, herr]
  have hmid : ServerLatencyInner.midLat (latenciesOf (la ++ Score.Latency x :: lb))
      ≤ (if (latenciesOf (la ++ Score.Errored :: lb)).isEmpty
          then DEFAULT_CHECK_TIMEOUT_SEC * 1000
          else ServerLatencyInner.midLat (latenciesOf (la ++ Score.Errored :: lb))) := by
    by_cases hv2 : (latenciesOf (la ++ Score.Errored :: lb)).isEmpty
    · -- the replaced entry was the only latency in the window
      have hab : latenciesOf la ++ latenciesOf lb = [] := by
        rw [← hlat2]
        cases hl : latenciesOf (la ++ Score.Errored :: lb) with
        | nil => rfl
        | cons a l => rw [hl] at hv2; simp at hv2
      have hla : latenciesOf la = [] := by
        cases hl : latenciesOf la with
        | nil => rfl
        | cons a l => rw [hl] at hab; simp at hab
      have hlb : latenciesOf lb = [] := by
        cases hl : latenciesOf lb with
        | nil => rfl
        | cons a l => rw [hl, hla] at hab; simp at hab
      have hsingle : latenciesOf (la ++ Score.Latency x :: lb) = [x] := by
        rw [hlat1, hla, hlb]
        rfl
      rw [hsingle]
      simp only [hv2, if_true]
      have hone : ([x] : List Nat).insertionSort (fun a b => a ≤ b) = [x] :=
        (List.sorted_singleton x).insertionSort_eq
      have hx : ServerLatencyInner.midLat [x] = x := by
        unfold ServerLatencyInner.midLat
        rw [hone]
        simp
      rw [hx]
      exact hx2000
    · simp only [hv2, if_false]
      rw [hlat1, hlat2]
      apply midLat_removal_le
      · rw [← hlat1]
        exact hmin
      · intro hab
        rw [hlat2, hab] at hv2
        simp at hv2
  apply Nat.div_le_div_right
  apply Nat.mul_le_mul_right
  have h1 : ServerLatencyInner.midLat (latenciesOf (la ++ Score.Latency x :: lb))
        * (la ++ Score.Latency x :: lb).length
      ≤ (if (latenciesOf (la ++ Score.Errored :: lb)).isEmpty
          then DEFAULT_CHECK_TIMEOUT_SEC * 1000
          else ServerLatencyInner.midLat (latenciesOf (la ++ Score.Errored :: lb)))
        * (la ++ Score.Latency x :: lb).length := Nat.mul_le_mul_right _ hmid
  have h2 : DEFAULT_CHECK_TIMEOUT_SEC * 1000 * (errCount (la ++ Score.Latency x :: lb) + 1)
      = DEFAULT_CHECK_TIMEOUT_SEC * 1000 * errCount (la ++ Score.Latency x :: lb)
        + DEFAULT_CHECK_TIMEOUT_SEC * 1000 := by ring
  omega

/-- Witness for C7 at a concrete window: replacing the minimal latency 0
in `[Latency 5, Latency 0, Errored]` with `Errored` does not decrease the
score. -/
theorem c7_errored_monotone_witness :
    (0 ≤ DEFAULT_CHECK_TIMEOUT_SEC * 1000) ∧
    (∀ y ∈ latenciesOf ([Score.Latency 5] ++ Score.Latency 0 :: [Score.Errored]), 0 ≤ y) ∧
    ServerLatencyInner.score ([Score.Latency 5] ++ Score.Latency 0 :: [Score.Errored])
      ≤ ServerLatencyInner.score ([Score.Latency 5] ++ Score.Errored :: [Score.Errored]) :=
  ⟨by decide, by decide,
    c7_errored_monotone [Score.Latency 5] [Score.Errored] 0 (by decide) (by decide)⟩

/-! ## Probe outcome classification (C5) -/

/-- Completion status of one probe attempt: the three-way outcome of
`time::timeout(timeout, check_request(..))` in `Inner::check_delay` — the
request finished with `Ok`, finished with `Err`, or the timeout fired. -/
inductive ProbeResult where
  | completedOk
  | completedErr
  | timedOut
deriving DecidableEq, Repr

/-- Source: `Inner::check_delay`.  `elapsed` models the measured
wall-clock time in milliseconds from just before the request to just
after the race resolved; when the timeout fires it is the full timeout
duration.  `Ok(Ok(..))` and the timeout branch both return `Ok(elapsed)`;
`Ok(Err(err))` propagates the error. -/
def check_delay (res : ProbeResult) (elapsed : Nat) : Except Unit Nat :=
  match res with
  | .completedOk => .ok elapsed
  | .completedErr => .error ()
  | .timedOut => .ok elapsed

/-- Source: `Inner::check_update_score`: pushes `Score::Latency(d)` when
`check_delay` returns `Ok(d)` and `Score::Errored` on `Err`. -/
def check_update_outcome (res : ProbeResult) (elapsed : Nat) : Score :=
  match check_delay res elapsed with
  | .ok d => .Latency d
  | .error _ => .Errored

/-- C5: a probe completing within the timeout with Ok records
`Latency(elapsed)`; completing with an IO/connect error records
`Errored`; an elapsed timeout records `Latency(elapsed)` — the elapsed
measurement being the full timeout duration — and is never recorded as
`Errored`. -/
theorem c5_probe_classification (elapsed : Nat) :
    check_update_outcome .completedOk elapsed = .Latency elapsed ∧
    check_update_outcome .completedErr elapsed = .Errored ∧
    check_update_outcome .timedOut elapsed = .Latency elapsed ∧
    check_update_outcome .timedOut elapsed ≠ .Errored := by
  refine ⟨rfl, rfl, rfl, ?_⟩
  intro h
  simp [check_update_outcome, check_delay] at h

/-! ## Best-server election (C4): Inner::choose_best_server -/

/-- The `for (idx, svr) in servers.iter().enumerate()` loop of
`Inner::choose_best_server`, over scores held fixed for the pass:
`ci` and `cs` are the current `choosen_idx` and `choosen.score()`; an
index replaces the choice only when its score is strictly smaller. -/
def choose_loop : List Nat → Nat → Nat → Nat → Nat × Nat
  | [], _, ci, cs => (ci, cs)
  | s :: rest, idx, ci, cs =>
    if s < cs then choose_loop rest (idx + 1) idx s
    else choose_loop rest (idx + 1) ci cs

/-- Source: `Inner::choose_best_server` with the servers' scores fixed
during the pass.  Starts from `choosen_idx = 0`, `choosen = servers[0]`,
scans all servers, then compares the chosen index with `best_idx`: if
different, stores it and returns `Some(last_best, new_best)` — modelled by
the pair of indices — else returns `None`.  The first component is the
resulting `best_idx`. -/
def choose_best_server (scores : List Nat) (best_idx : Nat) : Nat × Option (Nat × Nat) :=
  let choosen_idx := (choose_loop scores 0 0 (scores.headD 0)).1
  if choosen_idx ≠ best_idx then (choosen_idx, some (best_idx, choosen_idx))
  else (best_idx, none)

/-- Invariant of the election loop: the running choice is a lower bound of
the scanned scores, and when it moved it sits at the first position
attaining its value, strictly below every earlier scanned score. -/
theorem choose_loop_spec (l : List Nat) :
    ∀ (idx ci cs : Nat),
      (choose_loop l idx ci cs).2 ≤ cs ∧
      (∀ j, j < l.length → (choose_loop l idx ci cs).2 ≤ l.getD j 0) ∧
      (((choose_loop l idx ci cs).1 = ci ∧ (choose_loop l idx ci cs).2 = cs) ∨
        (∃ k, k < l.length ∧ (choose_loop l idx ci cs).1 = idx + k ∧
          (choose_loop l idx ci cs).2 = l.getD k 0 ∧ l.getD k 0 < cs ∧
          (∀ j, j < k → (choose_loop l idx ci cs).2 < l.getD j 0))) := by
  induction l with
  | nil =>
    intro idx ci cs
    refine ⟨le_refl _, ?_, Or.inl ⟨rfl, rfl⟩⟩
    intro j hj
    simp at hj
  | cons s rest ih =>
    intro idx ci cs
    by_cases hcmp : s < cs
    · simp only [choose_loop, if_pos hcmp]
      obtain ⟨h1, h2, h3⟩ := ih (idx + 1) idx s
      refine ⟨le_trans h1 (le_of_lt hcmp), ?_, ?_⟩
      · intro j hj
        cases j with
        | zero =>
          rw [List.getD_cons_zero]
          exact h1
        | succ m =>
          rw [List.getD_cons_succ]
          exact h2 m (by simpa using hj)
      · rcases h3 with ⟨hci, hcs⟩ | ⟨k, hk, hidx, hval, hlt, hall⟩
        · right
          refine ⟨0, by simp, ?_, ?_, ?_, ?_⟩
          · rw [hci]
            omega
          · rw [hcs, List.getD_cons_zero]
          · rw [List.getD_cons_zero]
            exact hcmp
          · intro j hj
            exact absurd hj (Nat.not_lt_zero j)
        · right
          refine ⟨k + 1, by simpa using hk, ?_, ?_, ?_, ?_⟩
          · rw [hidx]
            omega
          · rw [hval, List.getD_cons_succ]
          · rw [List.getD_cons_succ]
            exact lt_trans hlt hcmp
          · intro j hj
            cases j with
            | zero =>
              rw [List.getD_cons_zero, hval]
              exact hlt
            | succ m =>
              rw [List.getD_cons_succ]
              exact hall m (by omega)
    · simp only [choose_loop, if_neg hcmp]
      obtain ⟨h1, h2, h3⟩ := ih (idx + 1) ci cs
      refine ⟨h1, ?_, ?_⟩
      · intro j hj
        cases j with
        | zero =>
          rw [List.getD_cons_zero]
          exact le_trans h1 (not_lt.mp hcmp)
        | succ m =>
          rw [List.getD_cons_succ]
          exact h2 m (by simpa using hj)
      · rcases h3 with ⟨hci, hcs⟩ | ⟨k, hk, hidx, hval, hlt, hall⟩
        · exact Or.inl ⟨hci, hcs⟩
        · right
          refine ⟨k + 1, by simpa using hk, ?_, ?_, ?_, ?_⟩
          · rw [hidx]
            omega
          · rw [hval, List.getD_cons_succ]
          · rw [List.getD_cons_succ]
            exact hlt
          · intro j hj
            cases j with
            | zero =>
              rw [List.getD_cons_zero, hval]
              exact lt_of_lt_of_le hlt (not_lt.mp hcmp)
            | succ m =>
              rw [List.getD_cons_succ]
              exact hall m (by omega)

/-- C4: after one pass over servers with fixed scores, the resulting
`best_idx` points at a server with the minimum score, ties broken by the
lowest index; the pass returns `Some(old best, new best)` exactly when the
chosen index differs from the previous `best_idx`, and `None` (leaving
`best_idx` unchanged) otherwise. -/
theorem c4_choose_best_server (scores : List Nat) (b : Nat) (hne : scores ≠ []) :
    (choose_best_server scores b).1 < scores.length ∧
    (∀ j, j < scores.length →
      scores.getD (choose_best_server scores b).1 0 ≤ scores.getD j 0) ∧
    (∀ j, j < (choose_best_server scores b).1 →
      scores.getD (choose_best_server scores b).1 0 < scores.getD j 0) ∧
    ((choose_best_server scores b).1 ≠ b →
      (choose_best_server scores b).2 = some (b, (choose_best_server scores b).1)) ∧
    ((choose_best_server scores b).1 = b → (choose_best_server scores b).2 = none) := by
  obtain ⟨hv_le, hv_all, hcases⟩ := choose_loop_spec scores 0 0 (scores.headD 0)
  have hkey : scores.getD (choose_loop scores 0 0 (scores.headD 0)).1 0
        = (choose_loop scores 0 0 (scores.headD 0)).2 ∧
      (choose_loop scores 0 0 (scores.headD 0)).1 < scores.length ∧
      (∀ j, j < (choose_loop scores 0 0 (scores.headD 0)).1 →
        (choose_loop scores 0 0 (scores.headD 0)).2 < scores.getD j 0) := by
    rcases hcases with ⟨hc, hv⟩ | ⟨k, hk, hc, hv, hlt, hall⟩
    · refine ⟨?_, ?_, ?_⟩
      · rw [hc, hv]
        cases scores with
        | nil => exact absurd rfl hne
        | cons a l => rfl
      · rw [hc]
        exact List.length_pos.mpr hne
      · intro j hj
        rw [hc] at hj
        exact absurd hj (Nat.not_lt_zero j)
    · refine ⟨?_, ?_, ?_⟩
      · rw [hc, hv, Nat.zero_add]
      · rw [hc, Nat.zero_add]
        exact hk
      · intro j hj
        rw [hc, Nat.zero_add] at hj
        exact hall j hj
  obtain ⟨hgc, hclt, hmin⟩ := hkey
  have hdefn : choose_best_server scores b
      = if (choose_loop scores 0 0 (scores.headD 0)).1 ≠ b
        then ((choose_loop scores 0 0 (scores.headD 0)).1,
              some (b, (choose_loop scores 0 0 (scores.headD 0)).1))
        else (b, none) := rfl
  by_cases hcb : (choose_loop scores 0 0 (scores.headD 0)).1 = b
  · rw [hdefn, if_neg (by simpa using hcb)]
    refine ⟨hcb ▸ hclt, ?_, ?_, ?_, ?_⟩
    · intro j hj
      rw [← hcb, hgc]
      exact hv_all j hj
    · intro j hj
      rw [← hcb, hgc]
      exact hmin j (hcb ▸ hj)
    · intro h
      exact absurd rfl h
    · intro _
      rfl
  · rw [hdefn, if_pos hcb]
    refine ⟨hclt, ?_, ?_, ?_, ?_⟩
    · intro j hj
      rw [hgc]
      exact hv_all j hj
    · intro j hj
      rw [hgc]
      exact hmin j hj
    · intro _
      rfl
    · intro h
      exact absurd h hcb

/-- Witness for C4 at a concrete score vector: `[5, 3, 3]` with previous
best 0 elects index 1. -/
theorem c4_choose_best_server_witness :
    ([5, 3, 3] : List Nat) ≠ [] ∧
    (choose_best_server [5, 3, 3] 0).1 < ([5, 3, 3] : List Nat).length ∧
    (choose_best_server [5, 3, 3] 0).2 = some (0, 1) :=
  ⟨by decide, (c4_choose_best_server [5, 3, 3] 0 (by decide)).1, by decide⟩

/-! ## Balancer construction (C6): Inner::new / PingBalancer::new -/

/-- Observable result of constructing a `PingBalancer`: the fixed server
vector, the initial `best_idx`, the number of prober tasks spawned and
whether the election task was spawned. -/
structure BalancerModel (α : Type) where
  servers : List α
  best_idx : Nat
  prober_tasks : Nat
  election_task : Bool
deriving DecidableEq, Repr

/-- Source: `Inner::new` composed with `PingBalancer::new`.  The
`assert!(!servers.is_empty())` is modelled as `none`; one prober task per
server is spawned only when `servers.len() > 1`, and the election task is
spawned only when `checking_required()`, i.e. `servers.len() > 1`;
`best_idx` starts at 0. -/
def PingBalancer.new {α : Type} (servers : List α) : Option (BalancerModel α) :=
  if servers.isEmpty then none
  else some
    { servers := servers,
      best_idx := 0,
      prober_tasks := if 1 < servers.length then servers.length else 0,
      election_task := decide (1 < servers.length) }

/-- Source: `PingBalancer::pick_server` = `inner.best_server()` =
`servers[best_idx]`. -/
def pick_server {α : Type} (m : BalancerModel α) : Option α :=
  m.servers[m.best_idx]?

/-- Source: `PingBalancer::total` = `inner.total_server()` =
`servers.len()`. -/
def total {α : Type} (m : BalancerModel α) : Nat :=
  m.servers.length

/-- C6: constructing the balancer with an empty server list fails the
assertion; with exactly one server, no prober task and no election task is
spawned, `pick_server` returns that server and `total` returns 1. -/
theorem c6_single_server {α : Type} (s : α) :
    PingBalancer.new ([] : List α) = none ∧
    (∀ m, PingBalancer.new [s] = some m →
      m.prober_tasks = 0 ∧ m.election_task = false ∧
      pick_server m = some s ∧ total m = 1) := by
  refine ⟨rfl, ?_⟩
  intro m hm
  have hm' : some (⟨[s], 0, 0, false⟩ : BalancerModel α) = some m := hm
  have h := Option.some.inj hm'
  subst h
  exact ⟨rfl, rfl, rfl, rfl⟩

/-! ## relay/udprelay/socks5_local.rs : data model

The SOCKS5 address codec (`UdpAssociateHeader::read_from`,
`Address::read_from`, `write_to_buf`) and the cipher
(`encrypt_payload` / `decrypt_payload`) are external collaborators of the
specified core, so datagrams appear here in decoded, structured form. -/

/-- A socket address (ip, port); only identity matters to the model. -/
structure SocketAddr where
  ip : Nat
  port : Nat
deriving DecidableEq, Repr

/-- SOCKS5 address: socket address, or domain name plus port. -/
inductive Address where
  | SocketAddress (sa : SocketAddr)
  | DomainNameAddress (name : String) (port : Nat)
deriving DecidableEq, Repr

/-- SOCKS5 UDP-associate header `{ frag, address }`. -/
structure UdpAssociateHeader where
  frag : Nat
  address : Address
deriving DecidableEq, Repr

/-- A client-side datagram in decoded form: UDP-associate header followed
by the payload bytes. -/
structure ClientPacket where
  header : UdpAssociateHeader
  payload : List Nat
deriving DecidableEq, Repr

/-- The errors of the relay paths in scope (`io::Error` values are
distinguished only by which failure produced them). -/
inductive RelayError where
  | UnsupportedFragmentation
  | PacketTooShort
  | RecvFailure
deriving DecidableEq, Repr

/-- Source: `parse_packet`: reject with the unsupported-fragmentation
error if `header.frag != 0`, otherwise return the header's address and
the remaining bytes as the payload. -/
def parse_packet (pkt : ClientPacket) : Except RelayError (Address × List Nat) :=
  if pkt.header.frag ≠ 0 then .error .UnsupportedFragmentation
  else .ok (pkt.header.address, pkt.payload)

/-- Source: `UdpAssociation::relay_l2r` up to the upstream send: parse the
client packet, then serialize address-then-payload, encrypt, and send —
the datagram sent upstream is modelled by the (address, payload) pair.  A
parse failure (in particular `frag != 0`) aborts before anything is
sent. -/
def relay_l2r (pkt : ClientPacket) : Except RelayError (Address × List Nat) :=
  match parse_packet pkt with
  | .error e => .error e
  | .ok (addr, payload) => .ok (addr, payload)

/-- State of the local endpoint: the source addresses currently having a
live association (the keys of `assoc_map` in `run`). -/
structure EndpointState where
  assoc : List SocketAddr
deriving DecidableEq, Repr

/-- Source: the per-datagram body of the main loop of `run` for a
non-empty datagram: look up the association for the source address in the
table, creating and inserting one when absent (`Entry::Vacant`), then
enqueue the raw packet on the association's channel — the datagram is NOT
parsed in this loop; parsing happens later in the association's
local-to-remote task.  Returns the new state, whether a fresh association
was created, and the packet enqueued for that association. -/
def handle_datagram (st : EndpointState) (src : SocketAddr) (pkt : ClientPacket) :
    EndpointState × Bool × ClientPacket :=
  if src ∈ st.assoc then (st, false, pkt)
  else (⟨st.assoc ++ [src]⟩, true, pkt)

/-- C2, the claim as stated is false: a `frag = 1` datagram from a source
with no existing association DOES create an association — `run` inserts
into the table before any parsing, and `parse_packet` only rejects the
datagram later, inside the association's local-to-remote task. -/
theorem c2_counterexample :
    (handle_datagram ⟨[]⟩ ⟨1, 1000⟩
        ⟨⟨1, Address.SocketAddress ⟨2, 53⟩⟩, [7, 7]⟩).1.assoc = [⟨1, 1000⟩] ∧
    relay_l2r ⟨⟨1, Address.SocketAddress ⟨2, 53⟩⟩, [7, 7]⟩
      = .error .UnsupportedFragmentation :=
  ⟨rfl, rfl⟩

/-- C2 (amended): a client datagram whose UDP-associate header has a
nonzero `frag` is dropped with the unsupported-fragmentation error —
nothing is forwarded upstream — and existing associations are unaffected;
however an association for the source IS created first (when absent),
because the main loop inserts into the table before the datagram is
parsed. -/
theorem c2_frag_rejected (st : EndpointState) (src : SocketAddr) (pkt : ClientPacket)
    (hfrag : pkt.header.frag ≠ 0) :
    relay_l2r pkt = .error .UnsupportedFragmentation ∧
    (∀ a ∈ st.assoc, a ∈ (handle_datagram st src pkt).1.assoc) ∧
    src ∈ (handle_datagram st src pkt).1.assoc ∧
    ((handle_datagram st src pkt).2.1 = true ↔ src ∉ st.assoc) := by
  refine ⟨?_, ?_, ?_, ?_⟩
  · unfold relay_l2r parse_packet
    rw [if_pos hfrag]
  · intro a ha
    unfold handle_datagram
    by_cases hsrc : src ∈ st.assoc
    · simpa [hsrc] using ha
    · simp only [hsrc, if_false]
      simp [List.mem_append]
      exact Or.inl ha
  · unfold handle_datagram
    by_cases hsrc : src ∈ st.assoc
    · simp [hsrc]
    · simp [hsrc, List.mem_append]
  · unfold handle_datagram
    by_cases hsrc : src ∈ st.assoc
    · simp [hsrc]
    · simp [hsrc]

/-- Witness for C2 at a concrete state and packet. -/
theorem c2_frag_rejected_witness :
    ((⟨⟨1, Address.SocketAddress ⟨2, 53⟩⟩, [7, 7]⟩ : ClientPacket).header.frag ≠ 0) ∧
    relay_l2r ⟨⟨1, Address.SocketAddress ⟨2, 53⟩⟩, [7, 7]⟩
      = .error .UnsupportedFragmentation :=
  ⟨by decide,
    (c2_frag_rejected ⟨[⟨9, 9⟩]⟩ ⟨1, 1000⟩
      ⟨⟨1, Address.SocketAddress ⟨2, 53⟩⟩, [7, 7]⟩ (by decide)).1⟩

/-! ## Reply path (C9): UdpAssociation::relay_r2l -/

/-- Source: `UdpAssociation::relay_r2l`.  The input models the combined
result of `recv_from`, `decrypt_payload` and `Address::read_from` on one
upstream datagram: `.error` for a receive failure, `.ok none` when
`decrypt_payload` returns `None` (ciphertext shorter than the method's
minimum), and `.ok (some (addr, rest))` for a decrypted plaintext parsed
as leading address plus remaining bytes.  On success the parsed leading
address is discarded, and the pair of the client's source address and the
client-bound datagram `UdpAssociateHeader::new(0,
Address::SocketAddress(src_addr))` followed by the remaining bytes is
enqueued on the shared reply channel (`response_tx`). -/
def relay_r2l (src_addr : SocketAddr)
    (received : Except RelayError (Option (Address × List Nat))) :
    Except RelayError (SocketAddr × ClientPacket) :=
  match received with
  | .error e => .error e
  | .ok none => .error .PacketTooShort
  | .ok (some (_addr, rest)) =>
      .ok (src_addr, ⟨⟨0, Address.SocketAddress src_addr⟩, rest⟩)

/-- C9: for every upstream datagram whose decryption succeeds, whatever
leading address the plaintext carries, `relay_r2l` discards it and
enqueues on the reply channel a client-bound datagram whose header has
`frag = 0` and address equal to the client's own source address, followed
by the remaining plaintext bytes. -/
theorem c9_relay_r2l (src : SocketAddr) (addr : Address) (rest : List Nat) :
    relay_r2l src (.ok (some (addr, rest)))
      = .ok (src, ⟨⟨0, Address.SocketAddress src⟩, rest⟩) :=
  rfl

end Shadowsocks
